import Mathlib

/-!
Shallow embedding of `anon_forum.py` (AnonForum): a single-file Flask forum
over SQLite with four tables (users, posts, comments, votes) and five
request handlers (`signin`, `create_post`, `create_comment`, `vote`,
`posts_api`).

Modelling conventions:
* Strings are Lean `String`; Python `s.strip()` is `pyStrip`, stripping
  exactly the 29 code points Python's `str.isspace()` accepts; `s[:n]` is
  `pyTake n`.
* Timestamps (`datetime.utcnow().isoformat()` strings, compared
  lexicographically by `ORDER BY`, which agrees with chronological order for
  this fixed format) are modelled as `Nat` with its order.
* Each table is a list of rows in rowid (insertion) order; `AUTOINCREMENT`
  ids are the `next…` counters, starting at 1.
* `INSERT OR REPLACE` deletes every row that conflicts on the UNIQUE key and
  appends the fresh row (with a fresh rowid) at the end.
* `ORDER BY key` with no secondary key is modelled as a stable sort of the
  row list (SQLite scans in rowid order and sorts; rows that compare equal
  are kept in scan order).
* Each handler takes the request data (already-parsed JSON fields, session
  contents, remote address) and the database, and returns the HTTP status
  code it produces together with the database after the call (unchanged on
  a 400 response, which the handlers return before any write).
-/

/-- Characters removed by Python's `str.strip()`: exactly the code points
whose `str.isspace()` is true — tab through carriage return (9-13), the
separator controls 28-31, space (32), next line (0x85), no-break space
(0xa0), ogham space mark (0x1680), the Unicode space separators
0x2000-0x200a, line separator (0x2028), paragraph separator (0x2029),
narrow no-break space (0x202f), medium mathematical space (0x205f) and
ideographic space (0x3000). -/
def isPySpace (c : Char) : Bool :=
  (9 ≤ c.toNat && c.toNat ≤ 13) || (28 ≤ c.toNat && c.toNat ≤ 32) ||
  c.toNat = 0x85 || c.toNat = 0xa0 || c.toNat = 0x1680 ||
  (0x2000 ≤ c.toNat && c.toNat ≤ 0x200a) ||
  c.toNat = 0x2028 || c.toNat = 0x2029 || c.toNat = 0x202f ||
  c.toNat = 0x205f || c.toNat = 0x3000

/-- Python `s.strip()`: drop leading and trailing whitespace. -/
def pyStrip (s : String) : String :=
  ⟨(((s.data.dropWhile isPySpace).reverse.dropWhile isPySpace).reverse : List Char)⟩

/-- Python `s[:n]` on a string: first `n` characters. -/
def pyTake (n : Nat) (s : String) : String :=
  ⟨s.data.take n⟩

/-- Python `x or y` for an optional string `x` (`None` and `''` are falsy). -/
def pyOr (x : Option String) (y : String) : String :=
  match x with
  | none => y
  | some s => if s = "" then y else s

/-- Row of the `users` table. -/
structure User where
  id : Nat
  display_name : String
  anon_id : String
  created_at : Nat
deriving DecidableEq, Repr

/-- Row of the `posts` table (`score INTEGER DEFAULT 0`). -/
structure Post where
  id : Nat
  user_id : Option Nat
  title : String
  body : String
  score : Int
  created_at : Nat
deriving DecidableEq, Repr

/-- Row of the `comments` table. `post_id` is the Python int parsed from the
request and is not checked against the posts table (it may even be negative). -/
structure Comment where
  id : Nat
  post_id : Int
  user_id : Option Nat
  body : String
  created_at : Nat
deriving DecidableEq, Repr

/-- Row of the `votes` table; `UNIQUE(user_anon, target_type, target_id)`. -/
structure Vote where
  id : Nat
  user_anon : String
  target_type : String
  target_id : Int
  value : Int
deriving DecidableEq, Repr

/-- The whole SQLite database: the four tables in rowid order plus the next
AUTOINCREMENT id of each table. -/
structure DB where
  users : List User
  posts : List Post
  comments : List Comment
  votes : List Vote
  nextUser : Nat
  nextPost : Nat
  nextComment : Nat
  nextVote : Nat
deriving DecidableEq, Repr

/-- The freshly created database (`init_db` on a missing file). -/
def DB.init : DB :=
  ⟨[], [], [], [], 1, 1, 1, 1⟩

/-- Stable insertion step for the `ORDER BY` model: `a` goes in front of the
first element it compares `le` to, hence in front of no element that was
scanned before it and compares equal. -/
def sqlInsert (le : α → α → Bool) (a : α) : List α → List α
  | [] => [a]
  | b :: l => if le a b then a :: b :: l else b :: sqlInsert le a l

/-- Stable sort modelling SQLite's `ORDER BY` over a table scan: rows that
compare equal under `le` stay in scan (rowid) order. -/
def sqlSort (le : α → α → Bool) (l : List α) : List α :=
  l.foldr (sqlInsert le) []

/-- The helper `current_user()`: look the session's `anon_id` up in `users`
(`anon_id` is UNIQUE, so the first match is the only one). -/
def current_user (db : DB) (sessionAnon : Option String) : Option User :=
  match sessionAnon with
  | none => none
  | some a => if a = "" then none else db.users.find? (fun u => u.anon_id = a)

/-- The `/signin` handler: strip and truncate the display name to 30
characters; 400 on empty, otherwise insert a user row with the fresh random
token `anonId` (a parameter here) and answer 204. -/
def signin (db : DB) (displayName anonId : String) (now : Nat) : Nat × DB :=
  let name := pyTake 30 (pyStrip displayName)
  if name = "" then (400, db)
  else (204, { db with
    users := db.users ++ [⟨db.nextUser, name, anonId, now⟩],
    nextUser := db.nextUser + 1 })

/-- The `/post` handler: strip then truncate title (200) and body (4000);
400 if either is empty, otherwise insert the post row (`score` takes its
default 0) authored by the resolved current user, or NULL for a guest. -/
def create_post (db : DB) (sessionAnon : Option String) (title body : String)
    (now : Nat) : Nat × DB :=
  let user := current_user db sessionAnon
  let t := pyTake 200 (pyStrip title)
  let b := pyTake 4000 (pyStrip body)
  if t = "" || b = "" then (400, db)
  else (204, { db with
    posts := db.posts ++ [⟨db.nextPost, user.map (fun u => u.id), t, b, 0, now⟩],
    nextPost := db.nextPost + 1 })

/-- The `/comment` handler: `post_id` is the parsed int (`int(... or 0)`);
the guard `if not post_id or not body` rejects only `post_id == 0` and an
empty stripped body, then the comment row is inserted unconditionally. -/
def create_comment (db : DB) (sessionAnon : Option String) (postId : Int)
    (body : String) (now : Nat) : Nat × DB :=
  let user := current_user db sessionAnon
  let b := pyTake 1000 (pyStrip body)
  if postId = 0 || b = "" then (400, db)
  else (204, { db with
    comments := db.comments ++ [⟨db.nextComment, postId, user.map (fun u => u.id), b, now⟩],
    nextComment := db.nextComment + 1 })

/-- The voter identity of the `/vote` handler:
`session.get('anon_id') or request.remote_addr or 'anonymous'`. -/
def voteIdentity (sessionAnon remoteAddr : Option String) : String :=
  pyOr sessionAnon (pyOr remoteAddr "anonymous")

/-- Match of a vote row against the UNIQUE key `(user_anon, target_type,
target_id)`. -/
def voteKeyMatches (w : Vote) (anon ttype : String) (tid : Int) : Bool :=
  w.user_anon = anon && w.target_type = ttype && w.target_id = tid

/-- The `INSERT OR REPLACE INTO votes` statement: drop every row conflicting
on the UNIQUE key, append the new row with a fresh rowid. -/
def upsertVote (votes : List Vote) (newId : Nat) (anon ttype : String)
    (tid value : Int) : List Vote :=
  votes.filter (fun w => !voteKeyMatches w anon ttype tid) ++
    [⟨newId, anon, ttype, tid, value⟩]

/-- The score recomputation query
`SELECT SUM(value) FROM votes WHERE target_type=? AND target_id=?` followed
by `or 0` (SUM of no rows is NULL). -/
def sumVotes (votes : List Vote) (ttype : String) (tid : Int) : Int :=
  (votes.filter (fun w => w.target_type = ttype && w.target_id = tid)).foldl
    (fun acc w => acc + w.value) 0

/-- The writes performed by a valid `/vote` call: upsert the vote row under
the UNIQUE key, and when the target is a post, set that post's score to the
sum (`SELECT SUM(value) … WHERE target_type=? AND target_id=?`) over the
votes table as it stands after the upsert. -/
def voteApply (db : DB) (anon target_type : String) (target_id value : Int) : DB :=
  { db with
    votes := upsertVote db.votes db.nextVote anon target_type target_id value,
    posts :=
      if target_type = "post" then
        db.posts.map (fun p =>
          if (p.id : Int) = target_id then
            { p with score := sumVotes (upsertVote db.votes db.nextVote anon target_type target_id value) "post" target_id }
          else p)
      else db.posts,
    nextVote := db.nextVote + 1 }

/-- The `/vote` handler: validate target type, positive target id and value
in {-1, 1} (400 otherwise, before any write); otherwise perform the upsert
and score recomputation of `voteApply` under the voter identity. -/
def vote (db : DB) (sessionAnon remoteAddr : Option String)
    (target_type : String) (target_id value : Int) : Nat × DB :=
  if !(target_type = "post" || target_type = "comment") ||
      target_id ≤ 0 || !(value = -1 || value = 1) then (400, db)
  else (204, voteApply db (voteIdentity sessionAnon remoteAddr) target_type target_id value)

/-- One row of the nested comment list produced by `/posts`
(`SELECT c.*, u.display_name … LEFT JOIN users`). -/
structure CommentView where
  id : Nat
  post_id : Int
  user_id : Option Nat
  body : String
  created_at : Nat
  display_name : Option String
deriving DecidableEq, Repr

/-- One element of the JSON array produced by `/posts`. -/
structure PostView where
  id : Nat
  title : String
  body : String
  score : Int
  created_at : Nat
  display_name : Option String
  comments : List CommentView
deriving DecidableEq, Repr

/-- The LEFT JOIN of a nullable author id against `users` (ids are unique). -/
def displayNameOf (db : DB) (uid : Option Nat) : Option String :=
  (uid.bind (fun i => db.users.find? (fun u => u.id = i))).map (fun u => u.display_name)

/-- The per-post comment query of `/posts`:
`WHERE c.post_id = ? ORDER BY c.created_at ASC`. -/
def commentViewsFor (db : DB) (postId : Nat) : List CommentView :=
  (sqlSort (fun c d => decide (c.created_at ≤ d.created_at))
      (db.comments.filter (fun c => c.post_id = (postId : Int)))).map
    (fun c => ⟨c.id, c.post_id, c.user_id, c.body, c.created_at, displayNameOf db c.user_id⟩)

/-- The `/posts` handler (`posts_api`): all posts
`ORDER BY p.created_at DESC` (no secondary key), each with its author's
display name and its comment list. -/
def listPosts (db : DB) : List PostView :=
  (sqlSort (fun p q => decide (q.created_at ≤ p.created_at)) db.posts).map
    (fun r => ⟨r.id, r.title, r.body, r.score, r.created_at,
      displayNameOf db r.user_id, commentViewsFor db r.id⟩)

/-- The states the running application can actually be in: every database
obtained from the fresh one by a sequence of handler calls (failed calls
leave the database unchanged, so they are covered too). -/
inductive Reachable : DB → Prop
  | init : Reachable DB.init
  | step_signin (db : DB) (n a : String) (t : Nat) :
      Reachable db → Reachable (signin db n a t).2
  | step_post (db : DB) (s : Option String) (ti b : String) (t : Nat) :
      Reachable db → Reachable (create_post db s ti b t).2
  | step_comment (db : DB) (s : Option String) (pid : Int) (b : String) (t : Nat) :
      Reachable db → Reachable (create_comment db s pid b t).2
  | step_vote (db : DB) (s r : Option String) (tt : String) (tid v : Int) :
      Reachable db → Reachable (vote db s r tt tid v).2

/-- Two vote rows differ on the UNIQUE key `(user_anon, target_type, target_id)`. -/
def KeyDistinct (v w : Vote) : Prop :=
  ¬ (v.user_anon = w.user_anon ∧ v.target_type = w.target_type ∧ v.target_id = w.target_id)

/-- Structural facts that hold in every reachable database: the votes UNIQUE
constraint, and rowids strictly increasing along each table (rows are
appended with the fresh AUTOINCREMENT id). -/
structure DBInv (db : DB) : Prop where
  votesKeys : db.votes.Pairwise KeyDistinct
  postsIds : db.posts.Pairwise (fun p q => p.id < q.id)
  postsLt : ∀ p ∈ db.posts, p.id < db.nextPost
  commentsIds : db.comments.Pairwise (fun c d => c.id < d.id)
  commentsLt : ∀ c ∈ db.comments, c.id < db.nextComment

theorem sqlInsert_perm (le : α → α → Bool) (a : α) (l : List α) :
    List.Perm (sqlInsert le a l) (a :: l) := by
  induction l with
  | nil => simp [sqlInsert]
  | cons b l ih =>
    by_cases h : le a b = true
    · simp [sqlInsert, h]
    · simp only [sqlInsert, h]
      exact List.Perm.trans (List.Perm.cons b ih) (List.Perm.swap a b l)

theorem sqlSort_perm (le : α → α → Bool) (l : List α) :
    List.Perm (sqlSort le l) l := by
  induction l with
  | nil => simp [sqlSort]
  | cons x xs ih =>
    exact List.Perm.trans (sqlInsert_perm le x (sqlSort le xs)) (List.Perm.cons x ih)

theorem mem_sqlSort (le : α → α → Bool) (l : List α) (a : α) :
    a ∈ sqlSort le l ↔ a ∈ l :=
  (sqlSort_perm le l).mem_iff

theorem pairwise_sqlInsert (le : α → α → Bool) (R : α → α → Prop)
    (htrans : ∀ a b c, le a b = true → le b c = true → le a c = true)
    (htot : ∀ a b, le a b = true ∨ le b a = true)
    (x : α) (l : List α)
    (hl : l.Pairwise (fun a b => le a b = true ∧ (le b a = true → R a b)))
    (hx : ∀ b ∈ l, R x b) :
    (sqlInsert le x l).Pairwise (fun a b => le a b = true ∧ (le b a = true → R a b)) := by
  induction l with
  | nil => simp [sqlInsert]
  | cons b l ih =>
    rcases List.pairwise_cons.mp hl with ⟨hb, hl2⟩
    by_cases h : le x b = true
    · simp only [sqlInsert, h, if_pos]
      refine List.pairwise_cons.mpr ⟨?_, hl⟩
      intro c hc
      rcases List.mem_cons.mp hc with rfl | hc2
      · exact ⟨h, fun _ => hx c (List.mem_cons_self c l)⟩
      · exact ⟨htrans x b c h (hb c hc2).1, fun _ => hx c (List.mem_cons_of_mem b hc2)⟩
    · have hbx : le b x = true := (htot x b).resolve_left h
      simp only [sqlInsert, h]
      refine List.pairwise_cons.mpr
        ⟨?_, ih hl2 (fun c hc => hx c (List.mem_cons_of_mem b hc))⟩
      intro c hc
      have hc2 : c = x ∨ c ∈ l := by
        have := (sqlInsert_perm le x l).mem_iff.mp hc
        simpa using this
      rcases hc2 with rfl | hc3
      · exact ⟨hbx, fun hxb => absurd hxb h⟩
      · exact hb c hc3

theorem pairwise_sqlSort (le : α → α → Bool) (R : α → α → Prop)
    (htrans : ∀ a b c, le a b = true → le b c = true → le a c = true)
    (htot : ∀ a b, le a b = true ∨ le b a = true)
    (l : List α) (hR : l.Pairwise R) :
    (sqlSort le l).Pairwise (fun a b => le a b = true ∧ (le b a = true → R a b)) := by
  induction l with
  | nil => simp [sqlSort]
  | cons x xs ih =>
    rcases List.pairwise_cons.mp hR with ⟨hx, hxs⟩
    exact pairwise_sqlInsert le R htrans htot x (sqlSort le xs) (ih hxs)
      (fun b hb => hx b ((sqlSort_perm le xs).mem_iff.mp hb))

theorem score_update_id (p : Post) (s : Int) (c : Prop) [Decidable c] :
    (if c then { p with score := s } else p).id = p.id := by
  split <;> rfl

theorem votes_pairwise_upsert (votes : List Vote) (newId : Nat)
    (anon ttype : String) (tid value : Int) (h : votes.Pairwise KeyDistinct) :
    (upsertVote votes newId anon ttype tid value).Pairwise KeyDistinct := by
  rw [upsertVote, List.pairwise_append]
  refine ⟨h.sublist (List.filter_sublist votes), List.pairwise_singleton _ _, ?_⟩
  intro w hw b hb
  rcases List.mem_filter.mp hw with ⟨-, hcond⟩
  rcases List.mem_singleton.mp hb with rfl
  intro hkey
  rw [voteKeyMatches] at hcond
  simp only [Bool.not_eq_eq_eq_not, Bool.not_true, Bool.and_eq_false_imp] at hcond
  rcases hkey with ⟨h1, h2, h3⟩
  simp only [h1, h2, h3, decide_True, Bool.and_self, decide_eq_false_iff_not] at hcond
  revert hcond
  simp

theorem reachable_inv (db : DB) (h : Reachable db) : DBInv db := by
  induction h with
  | init =>
    exact ⟨List.Pairwise.nil, List.Pairwise.nil, by simp [DB.init],
      List.Pairwise.nil, by simp [DB.init]⟩
  | step_signin db n a t hr ih =>
    rw [signin]
    split
    · exact ih
    · exact ⟨ih.votesKeys, ih.postsIds, ih.postsLt, ih.commentsIds, ih.commentsLt⟩
  | step_post db s ti b t hr ih =>
    rw [create_post]
    split
    · exact ih
    · refine ⟨ih.votesKeys, ?_, ?_, ih.commentsIds, ih.commentsLt⟩
      · rw [List.pairwise_append]
        refine ⟨ih.postsIds, List.pairwise_singleton _ _, ?_⟩
        intro p hp q hq
        rcases List.mem_singleton.mp hq with rfl
        exact ih.postsLt p hp
      · intro p hp
        rcases List.mem_append.mp hp with h1 | h1
        · have := ih.postsLt p h1
          simp only [] at *
          omega
        · rcases List.mem_singleton.mp h1 with rfl
          simp
  | step_comment db s pid b t hr ih =>
    rw [create_comment]
    split
    · exact ih
    · refine ⟨ih.votesKeys, ih.postsIds, ih.postsLt, ?_, ?_⟩
      · rw [List.pairwise_append]
        refine ⟨ih.commentsIds, List.pairwise_singleton _ _, ?_⟩
        intro c hc d hd
        rcases List.mem_singleton.mp hd with rfl
        exact ih.commentsLt c hc
      · intro c hc
        rcases List.mem_append.mp hc with h1 | h1
        · have := ih.commentsLt c h1
          simp only [] at *
          omega
        · rcases List.mem_singleton.mp h1 with rfl
          simp
  | step_vote db s r tt tid v hr ih =>
    rw [vote]
    split
    · exact ih
    · simp only [voteApply]
      refine ⟨votes_pairwise_upsert _ _ _ _ _ _ ih.votesKeys, ?_, ?_, ih.commentsIds, ih.commentsLt⟩
      · dsimp only
        split
        · rw [List.pairwise_map]
          refine ih.postsIds.imp ?_
          intro p q hpq
          rw [score_update_id, score_update_id]
          exact hpq
        · exact ih.postsIds
      · dsimp only
        split
        · intro p hp
          rcases List.mem_map.mp hp with ⟨q, hq, rfl⟩
          rw [score_update_id]
          exact ih.postsLt q hq
        · exact ih.postsLt

theorem string_mk_eq_empty_iff (l : List Char) : (⟨l⟩ : String) = "" ↔ l = [] := by
  constructor
  · intro h
    have := congrArg String.data h
    simpa using this
  · rintro rfl
    rfl

theorem pyTake_ne_empty (n : Nat) (hn : 0 < n) (s : String) (hs : s ≠ "") :
    pyTake n s ≠ "" := by
  intro h
  apply hs
  cases s with
  | mk data =>
    rw [pyTake, string_mk_eq_empty_iff] at h
    rw [string_mk_eq_empty_iff]
    rcases List.take_eq_nil_iff.mp h with h1 | h1
    · omega
    · exact h1

theorem pyStrip_of_all_space (s : String) (h : ∀ c ∈ s.data, isPySpace c = true) :
    pyStrip s = "" := by
  have h1 : s.data.dropWhile isPySpace = [] := by
    rw [List.dropWhile_eq_nil_iff]
    exact h
  rw [pyStrip, h1]
  rfl

theorem pyTake_of_empty (n : Nat) : pyTake n "" = "" := by
  rw [pyTake]
  rw [show ("" : String).data = [] from rfl]
  rw [List.take_nil]

theorem mem_listPosts_of_mem (db : DB) (p : Post) (hp : p ∈ db.posts) :
    ∃ pv ∈ listPosts db, pv.id = p.id ∧ pv.title = p.title ∧ pv.body = p.body ∧
      pv.score = p.score ∧ pv.created_at = p.created_at := by
  refine ⟨⟨p.id, p.title, p.body, p.score, p.created_at, displayNameOf db p.user_id,
    commentViewsFor db p.id⟩, ?_, rfl, rfl, rfl, rfl, rfl⟩
  rw [listPosts]
  exact List.mem_map.mpr ⟨p, (mem_sqlSort _ _ _).mpr hp, rfl⟩

/-- C1: after any valid vote call targeting a post, the targeted post's
persisted score equals the sum of the value fields of exactly the vote rows
with target_type = post and that target id; the sum over zero such rows is
0; and starting from a reachable state those rows carry at most one row per
distinct voter identity (so the sum ranges over the latest value of each). -/
theorem C1_post_score_is_vote_sum (db : DB) (sess addr : Option String)
    (tid v : Int) (db2 : DB) (h : vote db sess addr "post" tid v = (204, db2)) :
    (∀ p ∈ db2.posts, (p.id : Int) = tid → p.score = sumVotes db2.votes "post" tid) ∧
    (∀ vs : List Vote,
      vs.filter (fun w => w.target_type = "post" && w.target_id = tid) = [] →
      sumVotes vs "post" tid = 0) ∧
    (Reachable db →
      (db2.votes.filter (fun w => w.target_type = "post" && w.target_id = tid)).Pairwise
        (fun x y => x.user_anon ≠ y.user_anon)) := by
  have hv2 : (vote db sess addr "post" tid v).2 = db2 := by rw [h]
  rw [vote] at h
  split at h
  · exact absurd (congrArg Prod.fst h) (by simp)
  · have h2 : voteApply db (voteIdentity sess addr) "post" tid v = db2 := congrArg Prod.snd h
    refine ⟨?_, ?_, ?_⟩
    · intro p hp hid
      rw [← h2] at hp
      have hposts : (voteApply db (voteIdentity sess addr) "post" tid v).posts =
          db.posts.map (fun q =>
            if (q.id : Int) = tid then
              { q with score := sumVotes (upsertVote db.votes db.nextVote (voteIdentity sess addr) "post" tid v) "post" tid }
            else q) := by
        simp [voteApply]
      rw [hposts] at hp
      rcases List.mem_map.mp hp with ⟨q, hq, rfl⟩
      by_cases hcase : (q.id : Int) = tid
      · rw [if_pos hcase, ← h2]
        rfl
      · rw [if_neg hcase] at hid
        exact absurd hid hcase
    · intro vs hfil
      rw [sumVotes, hfil]
      rfl
    · intro hr
      have hr2 : Reachable db2 := hv2 ▸ Reachable.step_vote db sess addr "post" tid v hr
      refine ((reachable_inv db2 hr2).votesKeys.sublist (List.filter_sublist _)).imp_of_mem ?_
      intro x y hx hy hk hxy
      rcases List.mem_filter.mp hx with ⟨-, hx2⟩
      rcases List.mem_filter.mp hy with ⟨-, hy2⟩
      simp only [Bool.and_eq_true, decide_eq_true_eq] at hx2 hy2
      exact hk ⟨hxy, by rw [hx2.1, hy2.1], by rw [hx2.2, hy2.2]⟩

theorem C1_witness :
    ((vote DB.init none none "post" 1 1).2.votes.filter
        (fun w => w.target_type = "post" && w.target_id = 1)).Pairwise
      (fun x y => x.user_anon ≠ y.user_anon) :=
  (C1_post_score_is_vote_sum DB.init none none 1 1
      (vote DB.init none none "post" 1 1).2 (by decide)).2.2 Reachable.init

/-- C2: in every reachable database the votes table holds at most one row
per (voter identity, target type, target id) key, and a repeat vote by the
same identity on the same target replaces the prior value: after any
successful vote, the rows matching that voter's key on that target are
exactly the single fresh row carrying the latest value. -/
theorem C2_vote_unique_last_write_wins :
    (∀ db : DB, Reachable db → db.votes.Pairwise KeyDistinct) ∧
    (∀ (db : DB) (sess addr : Option String) (tt : String) (tid v : Int) (db2 : DB),
      vote db sess addr tt tid v = (204, db2) →
      db2.votes.filter (fun w => voteKeyMatches w (voteIdentity sess addr) tt tid) =
        [⟨db.nextVote, voteIdentity sess addr, tt, tid, v⟩]) := by
  constructor
  · exact fun db hr => (reachable_inv db hr).votesKeys
  · intro db sess addr tt tid v db2 h
    rw [vote] at h
    split at h
    · exact absurd (congrArg Prod.fst h) (by simp)
    · have h2 : voteApply db (voteIdentity sess addr) tt tid v = db2 := congrArg Prod.snd h
      subst h2
      show (upsertVote db.votes db.nextVote (voteIdentity sess addr) tt tid v).filter _ = _
      rw [upsertVote, List.filter_append, List.filter_filter]
      have hnew : voteKeyMatches ⟨db.nextVote, voteIdentity sess addr, tt, tid, v⟩
          (voteIdentity sess addr) tt tid = true := by
        simp [voteKeyMatches]
      simp [hnew]

theorem C2_witness :
    (vote DB.init (some "id1") none "post" 1 1).2.votes.Pairwise KeyDistinct ∧
    (vote (vote DB.init (some "id1") none "post" 1 1).2
        (some "id1") none "post" 1 (-1)).2.votes.filter
      (fun w => voteKeyMatches w (voteIdentity (some "id1") none) "post" 1) =
      [⟨(vote DB.init (some "id1") none "post" 1 1).2.nextVote,
        voteIdentity (some "id1") none, "post", 1, -1⟩] :=
  ⟨C2_vote_unique_last_write_wins.1 _
      (Reachable.step_vote DB.init (some "id1") none "post" 1 1 Reachable.init),
   C2_vote_unique_last_write_wins.2 _ (some "id1") none "post" 1 (-1) _ (by decide)⟩

/-- C3: for every title and body that are non-empty after trimming,
create_post succeeds (204), and the listing returned by the posts API on the
resulting database contains a post view whose title and body are the
trimmed-then-truncated inputs (200 and 4000 characters) and whose score
is 0. -/
theorem C3_create_post_appears_in_listing (db : DB) (sess : Option String)
    (title body : String) (now : Nat)
    (ht : pyStrip title ≠ "") (hb : pyStrip body ≠ "") :
    (create_post db sess title body now).1 = 204 ∧
    ∃ pv ∈ listPosts (create_post db sess title body now).2,
      pv.title = pyTake 200 (pyStrip title) ∧
      pv.body = pyTake 4000 (pyStrip body) ∧
      pv.score = 0 := by
  have ht2 : pyTake 200 (pyStrip title) ≠ "" := pyTake_ne_empty 200 (by omega) _ ht
  have hb2 : pyTake 4000 (pyStrip body) ≠ "" := pyTake_ne_empty 4000 (by omega) _ hb
  have hres : create_post db sess title body now = (204, { db with
      posts := db.posts ++ [⟨db.nextPost, (current_user db sess).map (fun u => u.id),
        pyTake 200 (pyStrip title), pyTake 4000 (pyStrip body), 0, now⟩],
      nextPost := db.nextPost + 1 }) := by
    rw [create_post]
    simp [ht2, hb2]
  rw [hres]
  refine ⟨rfl, ?_⟩
  obtain ⟨pv, hpv, -, hti, hbo, hsc, -⟩ := mem_listPosts_of_mem
    { db with
      posts := db.posts ++ [⟨db.nextPost, (current_user db sess).map (fun u => u.id),
        pyTake 200 (pyStrip title), pyTake 4000 (pyStrip body), 0, now⟩],
      nextPost := db.nextPost + 1 }
    ⟨db.nextPost, (current_user db sess).map (fun u => u.id),
      pyTake 200 (pyStrip title), pyTake 4000 (pyStrip body), 0, now⟩
    (List.mem_append.mpr (Or.inr (List.mem_singleton.mpr rfl)))
  exact ⟨pv, hpv, hti, hbo, hsc⟩

theorem C3_witness :
    (create_post DB.init none " T " " B " 7).1 = 204 ∧
    (listPosts (create_post DB.init none " T " " B " 7).2).map
      (fun pv => (pv.title, pv.body, pv.score)) = [("T", "B", 0)] :=
  ⟨(C3_create_post_appears_in_listing DB.init none " T " " B " 7
      (by decide) (by decide)).1, by decide⟩

/-- C4 counterexample: two posts created with equal created_at come back
from the listing with the smaller id first: the query
`ORDER BY p.created_at DESC` has no secondary sort key, so rows with equal
created_at stay in table (id-ascending) order, refuting the claimed
id-descending tie-break. -/
theorem C4_counterexample :
    ((listPosts (create_post (create_post DB.init none "a" "b" 5).2 none "c" "d" 5).2).map
      (fun pv => (pv.id, pv.created_at))) = [(1, 5), (2, 5)] ∧
    ¬ ((listPosts (create_post (create_post DB.init none "a" "b" 5).2 none "c" "d" 5).2).Pairwise
      (fun pv qv => pv.created_at = qv.created_at → qv.id < pv.id)) := by
  constructor
  · decide
  · decide

/-- C4 as amended: listPostsWithComments returns exactly the posts, ordered
by created_at descending; between two posts with equal created_at the one
with the smaller id comes first (table order — the query has no secondary
key); consequently a post whose created_at is strictly greater than every
other post's is returned first. -/
theorem C4_amended_posts_ordering (db : DB) (hr : Reachable db) :
    ((listPosts db).map (fun pv => (pv.id, pv.created_at))).Perm
      (db.posts.map (fun p => (p.id, p.created_at))) ∧
    (listPosts db).Pairwise (fun pv qv =>
      qv.created_at ≤ pv.created_at ∧ (pv.created_at = qv.created_at → pv.id < qv.id)) ∧
    (∀ p ∈ db.posts, (∀ q ∈ db.posts, q.id ≠ p.id → q.created_at < p.created_at) →
      ((listPosts db).head?).map (fun pv => pv.id) = some p.id) := by
  have htrans : ∀ a b c : Post, (decide (b.created_at ≤ a.created_at)) = true →
      (decide (c.created_at ≤ b.created_at)) = true →
      (decide (c.created_at ≤ a.created_at)) = true := by
    intro a b c h1 h2
    simp only [decide_eq_true_eq] at h1 h2 ⊢
    omega
  have htot : ∀ a b : Post, (decide (b.created_at ≤ a.created_at)) = true ∨
      (decide (a.created_at ≤ b.created_at)) = true := by
    intro a b
    simp only [decide_eq_true_eq]
    omega
  have hpair := pairwise_sqlSort (fun p q : Post => decide (q.created_at ≤ p.created_at))
    (fun p q => p.id < q.id) htrans htot db.posts (reachable_inv db hr).postsIds
  refine ⟨?_, ?_, ?_⟩
  · rw [listPosts, List.map_map]
    exact (sqlSort_perm _ db.posts).map _
  · rw [listPosts, List.pairwise_map]
    refine hpair.imp ?_
    intro a b hab
    exact ⟨of_decide_eq_true hab.1, fun heq => hab.2 (decide_eq_true (le_of_eq heq))⟩
  · intro p hp hmax
    have hmem : p ∈ sqlSort (fun p q : Post => decide (q.created_at ≤ p.created_at)) db.posts :=
      (mem_sqlSort _ db.posts p).mpr hp
    cases hsort : sqlSort (fun p q : Post => decide (q.created_at ≤ p.created_at)) db.posts with
    | nil =>
      rw [hsort] at hmem
      cases hmem
    | cons h0 rest =>
      rw [hsort] at hmem hpair
      have hh0 : h0 ∈ db.posts := (mem_sqlSort _ db.posts h0).mp
        (by rw [hsort]; exact List.mem_cons_self h0 rest)
      have hid : h0.id = p.id := by
        by_contra hne
        have hlt : h0.created_at < p.created_at := hmax h0 hh0 hne
        rcases List.mem_cons.mp hmem with rfl | hrest
        · exact hne rfl
        · rcases List.pairwise_cons.mp hpair with ⟨hh, -⟩
          have hle : p.created_at ≤ h0.created_at := of_decide_eq_true (hh p hrest).1
          omega
      rw [listPosts, hsort]
      simp [hid]

theorem C4_amended_witness :
    ((listPosts (create_post DB.init none "t" "b" 3).2).map
      (fun pv => (pv.id, pv.created_at))).Perm
      ((create_post DB.init none "t" "b" 3).2.posts.map (fun p => (p.id, p.created_at))) ∧
    ((listPosts (create_post DB.init none "t" "b" 3).2).head?).map (fun pv => pv.id) =
      some 1 := by
  have h := C4_amended_posts_ordering (create_post DB.init none "t" "b" 3).2
    (Reachable.step_post DB.init none "t" "b" 3 Reachable.init)
  exact ⟨h.1, h.2.2 ⟨1, none, pyTake 200 (pyStrip "t"), pyTake 4000 (pyStrip "b"), 0, 3⟩
    (by decide) (by decide)⟩

/-- C5: in the listing, each post view carries exactly the comments whose
post_id equals that post's id, ordered by created_at ascending (oldest
first) with ties in id-ascending (insertion) order, however their
insertions were interleaved with other posts' comments. -/
theorem C5_comments_of_post_ordering (db : DB) (hr : Reachable db)
    (pv : PostView) (hpv : pv ∈ listPosts db) :
    (pv.comments.map (fun cv => (cv.id, cv.created_at))).Perm
      ((db.comments.filter (fun c => c.post_id = (pv.id : Int))).map
        (fun c => (c.id, c.created_at))) ∧
    (∀ cv ∈ pv.comments, cv.post_id = (pv.id : Int)) ∧
    pv.comments.Pairwise (fun cv dv =>
      cv.created_at ≤ dv.created_at ∧ (cv.created_at = dv.created_at → cv.id < dv.id)) := by
  rw [listPosts] at hpv
  rcases List.mem_map.mp hpv with ⟨r, hrs, rfl⟩
  have htrans : ∀ a b c : Comment, (decide (a.created_at ≤ b.created_at)) = true →
      (decide (b.created_at ≤ c.created_at)) = true →
      (decide (a.created_at ≤ c.created_at)) = true := by
    intro a b c h1 h2
    simp only [decide_eq_true_eq] at h1 h2 ⊢
    omega
  have htot : ∀ a b : Comment, (decide (a.created_at ≤ b.created_at)) = true ∨
      (decide (b.created_at ≤ a.created_at)) = true := by
    intro a b
    simp only [decide_eq_true_eq]
    omega
  have hfil : (db.comments.filter (fun c => c.post_id = (r.id : Int))).Pairwise
      (fun c d => c.id < d.id) :=
    (reachable_inv db hr).commentsIds.sublist (List.filter_sublist _)
  have hpair := pairwise_sqlSort (fun c d : Comment => decide (c.created_at ≤ d.created_at))
    (fun c d => c.id < d.id) htrans htot _ hfil
  refine ⟨?_, ?_, ?_⟩
  · show ((commentViewsFor db r.id).map (fun cv => (cv.id, cv.created_at))).Perm _
    rw [commentViewsFor, List.map_map]
    exact (sqlSort_perm _ _).map _
  · intro cv hcv
    rcases List.mem_map.mp hcv with ⟨c, hc, rfl⟩
    have hcmem : c ∈ db.comments.filter (fun c => c.post_id = (r.id : Int)) :=
      (mem_sqlSort _ _ c).mp hc
    exact of_decide_eq_true (List.mem_filter.mp hcmem).2
  · show (commentViewsFor db r.id).Pairwise _
    rw [commentViewsFor, List.pairwise_map]
    refine hpair.imp ?_
    intro a b hab
    exact ⟨of_decide_eq_true hab.1, fun heq => hab.2 (decide_eq_true (le_of_eq heq.symm))⟩

theorem C5_witness :
    ((⟨1, "t", "b", 0, 1, none, [⟨1, 1, none, "c1", 2, none⟩]⟩ : PostView).comments.map
        (fun cv => (cv.id, cv.created_at))).Perm
      (((create_comment (create_post DB.init none "t" "b" 1).2 none 1 "c1" 2).2.comments.filter
          (fun c => c.post_id = ((1 : Nat) : Int))).map (fun c => (c.id, c.created_at))) ∧
    (⟨1, "t", "b", 0, 1, none, [⟨1, 1, none, "c1", 2, none⟩]⟩ : PostView).comments.Pairwise
      (fun cv dv => cv.created_at ≤ dv.created_at ∧ (cv.created_at = dv.created_at → cv.id < dv.id)) := by
  have h := C5_comments_of_post_ordering
    (create_comment (create_post DB.init none "t" "b" 1).2 none 1 "c1" 2).2
    (Reachable.step_comment _ none 1 "c1" 2 (Reachable.step_post DB.init none "t" "b" 1 Reachable.init))
    ⟨1, "t", "b", 0, 1, none, [⟨1, 1, none, "c1", 2, none⟩]⟩ (by decide)
  exact ⟨h.1, h.2.2⟩

/-- C6: every operation that takes free-text input (`signin` a display name,
`create_post` a title and body, `create_comment` a body) answers 400 on an
empty or whitespace-only value of that input and returns with the database
exactly as it was: no row of any table is inserted or modified. -/
theorem C6_blank_input_rejected_without_mutation
    (db : DB) (sess : Option String) (name tok title body cbody : String)
    (pid : Int) (now : Nat)
    (hname : ∀ c ∈ name.data, isPySpace c = true)
    (htb : (∀ c ∈ title.data, isPySpace c = true) ∨ (∀ c ∈ body.data, isPySpace c = true))
    (hcb : ∀ c ∈ cbody.data, isPySpace c = true) :
    signin db name tok now = (400, db) ∧
    create_post db sess title body now = (400, db) ∧
    create_comment db sess pid cbody now = (400, db) := by
  have hn : pyTake 30 (pyStrip name) = "" := by
    rw [pyStrip_of_all_space name hname]
    exact pyTake_of_empty 30
  have hc : pyTake 1000 (pyStrip cbody) = "" := by
    rw [pyStrip_of_all_space cbody hcb]
    exact pyTake_of_empty 1000
  refine ⟨?_, ?_, ?_⟩
  · rw [signin, hn]
    simp
  · rcases htb with h | h
    · have ht : pyTake 200 (pyStrip title) = "" := by
        rw [pyStrip_of_all_space title h]
        exact pyTake_of_empty 200
      rw [create_post, ht]
      simp
    · have hb : pyTake 4000 (pyStrip body) = "" := by
        rw [pyStrip_of_all_space body h]
        exact pyTake_of_empty 4000
      rw [create_post, hb]
      simp
  · rw [create_comment, hc]
    simp

theorem C6_witness :
    signin DB.init " " "tok" 0 = (400, DB.init) ∧
    create_post DB.init none " " "x" 0 = (400, DB.init) ∧
    create_comment DB.init none 5 "\t" 0 = (400, DB.init) :=
  C6_blank_input_rejected_without_mutation DB.init none " " "tok" " " "x" "\t" 5 0
    (by decide) (Or.inl (by decide)) (by decide)

/-- C7 counterexample: the claim states that every `postId ≤ 0` is rejected,
but `create_comment` with `postId = -1` and a non-empty body succeeds (204)
and persists a comment row whose `post_id` is `-1`: the guard
`if not post_id or not body` in `anon_forum.py` only catches `post_id == 0`. -/
theorem C7_counterexample :
    (create_comment DB.init none (-1) "hi" 0).1 = 204 ∧
    (create_comment DB.init none (-1) "hi" 0).2.comments.map
      (fun c => (c.id, c.post_id)) = [(1, -1)] := by
  decide

/-- C7 as amended: `create_comment` answers 400 and leaves the database
unchanged exactly when the body is empty after trimming or `postId = 0`;
every other `postId` — negative ones included — is accepted, appending the
comment row. -/
theorem C7_amended_comment_validation (db : DB) (sess : Option String) (pid : Int)
    (body : String) (now : Nat) :
    ((pid = 0 ∨ pyStrip body = "") → create_comment db sess pid body now = (400, db)) ∧
    (pid ≠ 0 → pyStrip body ≠ "" →
      (create_comment db sess pid body now).1 = 204 ∧
      (create_comment db sess pid body now).2.comments =
        db.comments ++ [⟨db.nextComment, pid, (current_user db sess).map (fun u => u.id),
          pyTake 1000 (pyStrip body), now⟩]) := by
  constructor
  · intro h
    rcases h with h | h
    · rw [create_comment, h]
      simp
    · have hb : pyTake 1000 (pyStrip body) = "" := by
        rw [h]
        exact pyTake_of_empty 1000
      rw [create_comment, hb]
      simp
  · intro hpid hbody
    have ht : pyTake 1000 (pyStrip body) ≠ "" := pyTake_ne_empty 1000 (by omega) _ hbody
    rw [create_comment]
    simp [hpid, ht]

theorem C7_amended_witness :
    create_comment DB.init none 0 "x" 0 = (400, DB.init) ∧
    (create_comment DB.init none 7 " hi " 0).1 = 204 ∧
    (create_comment DB.init none 7 " hi " 0).2.comments =
      DB.init.comments ++ [⟨DB.init.nextComment, 7,
        (current_user DB.init none).map (fun u => u.id), pyTake 1000 (pyStrip " hi "), 0⟩] := by
  refine ⟨(C7_amended_comment_validation DB.init none 0 "x" 0).1 (Or.inl rfl), ?_, ?_⟩
  · exact ((C7_amended_comment_validation DB.init none 7 " hi " 0).2 (by decide) (by decide)).1
  · exact ((C7_amended_comment_validation DB.init none 7 " hi " 0).2 (by decide) (by decide)).2

/-- C8: a valid vote on a comment records (upserts) the vote row — it
becomes the last row of the votes table — but leaves every post row, and in
particular every score, untouched; and a vote on a post leaves every post
other than the targeted one unchanged in the table. -/
theorem C8_comment_votes_never_scored (db : DB) (sess addr : Option String)
    (tid v : Int) :
    (vote db sess addr "comment" tid v).2.posts = db.posts ∧
    (0 < tid → (v = -1 ∨ v = 1) →
      (vote db sess addr "comment" tid v).2.votes.getLast? =
        some ⟨db.nextVote, voteIdentity sess addr, "comment", tid, v⟩) ∧
    (∀ p ∈ db.posts, (p.id : Int) ≠ tid →
      p ∈ (vote db sess addr "post" tid v).2.posts) := by
  refine ⟨?_, ?_, ?_⟩
  · rw [vote]
    split
    · rfl
    · simp [voteApply]
  · intro htid hv
    rw [vote]
    split
    · rename_i hcond
      exfalso
      simp at hcond
      rcases hcond with h | h
      · omega
      · rcases hv with rfl | rfl <;> simp at h
    · show (upsertVote db.votes db.nextVote (voteIdentity sess addr) "comment" tid v).getLast? = _
      rw [upsertVote, List.getLast?_concat]
  · intro p hp hne
    rw [vote]
    split
    · exact hp
    · show p ∈ (voteApply db (voteIdentity sess addr) "post" tid v).posts
      simp only [voteApply, if_true]
      refine List.mem_map.mpr ⟨p, hp, ?_⟩
      simp [hne]

theorem C8_witness :
    (vote DB.init none none "comment" 3 1).2.posts = DB.init.posts ∧
    (vote DB.init none none "comment" 3 1).2.votes.getLast? =
      some ⟨DB.init.nextVote, voteIdentity none none, "comment", 3, 1⟩ := by
  refine ⟨(C8_comment_votes_never_scored DB.init none none 3 1).1, ?_⟩
  exact (C8_comment_votes_never_scored DB.init none none 3 1).2.1 (by decide) (Or.inr rfl)

/-- C9 counterexample: the claim says that without a session identity the
voter identity is the caller's network address, but when the remote address
is also absent a valid vote still succeeds and records the constant string
`anonymous` as the identity (`session.get('anon_id') or request.remote_addr
or 'anonymous'`). -/
theorem C9_counterexample :
    (vote DB.init none none "post" 1 1).1 = 204 ∧
    (vote DB.init none none "post" 1 1).2.votes.map (fun w => w.user_anon) =
      ["anonymous"] := by
  decide

/-- C9 as amended: the deduplication identity recorded in the vote row is
the session's anon token when the session carries a non-empty one, else the
caller's network address when one is present and non-empty, else the literal
string `anonymous`; every successful vote records exactly this identity in
the upserted row. -/
theorem C9_amended_voter_identity (db : DB) (sess addr : Option String)
    (tt : String) (tid v : Int) (db2 : DB)
    (h : vote db sess addr tt tid v = (204, db2)) :
    db2.votes.getLast? = some ⟨db.nextVote, voteIdentity sess addr, tt, tid, v⟩ ∧
    (∀ a : String, sess = some a → a ≠ "" → voteIdentity sess addr = a) ∧
    (∀ r : String, (sess = none ∨ sess = some "") → addr = some r → r ≠ "" →
      voteIdentity sess addr = r) ∧
    ((sess = none ∨ sess = some "") → (addr = none ∨ addr = some "") →
      voteIdentity sess addr = "anonymous") := by
  refine ⟨?_, ?_, ?_, ?_⟩
  · rw [vote] at h
    split at h
    · exact absurd (congrArg Prod.fst h) (by simp)
    · have h2 : voteApply db (voteIdentity sess addr) tt tid v = db2 := congrArg Prod.snd h
      subst h2
      show (upsertVote db.votes db.nextVote (voteIdentity sess addr) tt tid v).getLast? = _
      rw [upsertVote, List.getLast?_concat]
  · intro a ha hne
    subst ha
    simp [voteIdentity, pyOr, hne]
  · intro r hs hr hne
    subst hr
    rcases hs with rfl | rfl <;> simp [voteIdentity, pyOr, hne]
  · intro hs ha
    rcases hs with rfl | rfl <;> rcases ha with rfl | rfl <;> simp [voteIdentity, pyOr]

theorem C9_amended_witness :
    (vote DB.init (some "tok") none "post" 2 1).2.votes.getLast? =
      some ⟨DB.init.nextVote, voteIdentity (some "tok") none, "post", 2, 1⟩ ∧
    voteIdentity (some "tok") none = "tok" := by
  have h := C9_amended_voter_identity DB.init (some "tok") none "post" 2 1
    (vote DB.init (some "tok") none "post" 2 1).2 (by decide)
  exact ⟨h.1, h.2.1 "tok" rfl (by decide)⟩

/-- C10: a session token that matches no user row resolves to no current
user, and both `create_post` and `create_comment` still succeed for valid
input, persisting the row with a NULL `user_id` (guest author). -/
theorem C10_unknown_token_posts_as_guest (db : DB) (a : String)
    (title body cbody : String) (pid : Int) (now : Nat)
    (hu : ∀ u ∈ db.users, u.anon_id ≠ a) :
    current_user db (some a) = none ∧
    (pyStrip title ≠ "" → pyStrip body ≠ "" →
      (create_post db (some a) title body now).1 = 204 ∧
      (create_post db (some a) title body now).2.posts =
        db.posts ++ [⟨db.nextPost, none, pyTake 200 (pyStrip title),
          pyTake 4000 (pyStrip body), 0, now⟩]) ∧
    (pid ≠ 0 → pyStrip cbody ≠ "" →
      (create_comment db (some a) pid cbody now).1 = 204 ∧
      (create_comment db (some a) pid cbody now).2.comments =
        db.comments ++ [⟨db.nextComment, pid, none, pyTake 1000 (pyStrip cbody), now⟩]) := by
  have hcu : current_user db (some a) = none := by
    rw [current_user]
    split
    · rfl
    · rw [List.find?_eq_none]
      intro u hu2
      simp [hu u hu2]
  refine ⟨hcu, ?_, ?_⟩
  · intro ht hb
    have ht2 : pyTake 200 (pyStrip title) ≠ "" := pyTake_ne_empty 200 (by omega) _ ht
    have hb2 : pyTake 4000 (pyStrip body) ≠ "" := pyTake_ne_empty 4000 (by omega) _ hb
    rw [create_post, hcu]
    simp [ht2, hb2]
  · intro hpid hcb
    have hc2 : pyTake 1000 (pyStrip cbody) ≠ "" := pyTake_ne_empty 1000 (by omega) _ hcb
    rw [create_comment, hcu]
    simp [hpid, hc2]

theorem C10_witness :
    current_user DB.init (some "ghost") = none ∧
    (create_post DB.init (some "ghost") "T" "B" 4).1 = 204 ∧
    (create_post DB.init (some "ghost") "T" "B" 4).2.posts =
      DB.init.posts ++ [⟨DB.init.nextPost, none, pyTake 200 (pyStrip "T"),
        pyTake 4000 (pyStrip "B"), 0, 4⟩] := by
  have h := C10_unknown_token_posts_as_guest DB.init "ghost" "T" "B" "c" 1 4
    (by intro u hu; simp [DB.init] at hu)
  exact ⟨h.1, (h.2.1 (by decide) (by decide)).1, (h.2.1 (by decide) (by decide)).2⟩
